import Mathlib

/-!
# Verification of the file-share storage service

Shallow embedding of the core of the file-sharing server:

* `LocalFS` — the local-filesystem storage provider
  (`src/storage/LocalFileSystemProvider.js`): the filesystem is modelled as
  two association lists, one for the `files/` folder (content blobs keyed by
  the key they are stored under) and one for the `.metadata/` folder (one
  JSON record per file `<key>.json`, keyed by `<key>`).
* `GCS` — the Google Cloud Storage provider
  (`src/storage/GoogleCloudStorageProvider.js`): bucket objects keyed by
  their full object path, metadata records keyed by key as above; the
  metadata record additionally stores `filePath`.
* `CleanupJob` — the inactive-storage cleanup cycle (`src/jobs/cleanupJob.js`),
  with the storage provider abstracted by its observable outcomes.
* `UsageLimiter` — the per-IP daily usage ledger
  (`src/middleware/usageLimiter.js`).

Timestamps are modelled as integers (milliseconds since the epoch, the order
used by JavaScript `Date` comparison); byte buffers as `List Nat`.
-/

/-- First-match lookup in an association list, the model of reading a file
by name from a directory (each list entry is one file). -/
def lookupA {α : Type} : List (String × α) → String → Option α
  | [], _ => none
  | (k', v) :: rest, k => if k' = k then some v else lookupA rest k

/-- Overwriting insert: replaces the first binding of `k` in place, or
appends a new one.  Models `fs.writeFile` / object `save` (create or
overwrite). -/
def insertA {α : Type} : List (String × α) → String → α → List (String × α)
  | [], k, v => [(k, v)]
  | (k', v') :: rest, k, v =>
    if k' = k then (k, v) :: rest else (k', v') :: insertA rest k v

/-- Removes the first binding of `k`, if any.  Models `fs.unlink` / object
`delete` (a missing target is a no-op, matching the ignored unlink errors in
the source). -/
def eraseA {α : Type} : List (String × α) → String → List (String × α)
  | [], _ => []
  | (k', v') :: rest, k =>
    if k' = k then rest else (k', v') :: eraseA rest k

/-- A directory listing is well-formed when its filenames are distinct,
which `fs.readdir` on a real directory guarantees. -/
abbrev wfMap {α : Type} (m : List (String × α)) : Prop :=
  (m.map Prod.fst).Nodup

namespace LocalFS

/-- The metadata record written by `uploadFile`
(`LocalFileSystemProvider.uploadFile`): fields `publicKey, privateKey,
originalName, mimeType, createdAt, lastAccessed, fileSize` of the JSON
document. -/
structure Metadata where
  publicKey : String
  privateKey : String
  originalName : String
  mimeType : String
  createdAt : Int
  lastAccessed : Option Int
  fileSize : Nat
deriving Repr, DecidableEq

/-- The observable state of the local provider's root folder: the `files/`
directory (content blobs, keyed by the key they were written under) and the
`.metadata/` directory (records keyed by `<key>` of `<key>.json`). -/
structure Store where
  files : List (String × List Nat)
  metadata : List (String × Metadata)
deriving Repr, DecidableEq

/-- `LocalFileSystemProvider.uploadFile(fileBuffer, originalName, mimeType)`.
The two fresh random keys from `_generateKeys()` are passed in as `keys`,
and `new Date()` as `now`.  Writes the content blob under the public key,
then the metadata record under the public key and under the private key;
returns the key pair. -/
def uploadFile (s : Store) (keys : String × String) (content : List Nat)
    (originalName mimeType : String) (now : Int) : Store × String × String :=
  let publicKey := keys.1
  let privateKey := keys.2
  let s1 : Store := { s with files := insertA s.files publicKey content }
  let md : Metadata :=
    { publicKey := publicKey, privateKey := privateKey,
      originalName := originalName, mimeType := mimeType,
      createdAt := now, lastAccessed := none, fileSize := content.length }
  let s2 : Store := { s1 with metadata := insertA s1.metadata publicKey md }
  let s3 : Store := { s2 with metadata := insertA s2.metadata privateKey md }
  (s3, publicKey, privateKey)

/-- Failure mode of `downloadFile`: `fileNotFound` is the thrown
`Error('File not found')` (missing metadata); `readError` is a raw
filesystem error escaping from `fs.readFile` on the content path. -/
inductive DownloadError where
  | fileNotFound
  | readError
deriving Repr, DecidableEq

/-- `LocalFileSystemProvider.downloadFile(publicKey)`.  Checks that a
metadata record exists under the supplied key (else `File not found`),
reads the content at `files/<suppliedKey>` (a raw error if absent), sets
`lastAccessed = now` on the record under the supplied key and under the
record's `privateKey`, and returns the buffer with `mimeType` and
`originalName`. -/
def downloadFile (s : Store) (key : String) (now : Int) :
    Except DownloadError (Store × List Nat × String × String) :=
  match lookupA s.metadata key with
  | none => Except.error DownloadError.fileNotFound
  | some md =>
    match lookupA s.files key with
    | none => Except.error DownloadError.readError
    | some buffer =>
      let md' : Metadata := { md with lastAccessed := some now }
      let s1 : Store := { s with metadata := insertA s.metadata key md' }
      let s2 : Store := { s1 with metadata := insertA s1.metadata md.privateKey md' }
      Except.ok (s2, buffer, md.mimeType, md.originalName)

/-- `LocalFileSystemProvider.deleteFile(privateKey)`.  Returns `false` if no
metadata record is readable under the supplied key; otherwise unlinks the
content blob at `files/<record.publicKey>`, the metadata file of
`record.publicKey` and the metadata file of the supplied key (each unlink
error ignored), and returns `true`. -/
def deleteFile (s : Store) (key : String) : Store × Bool :=
  match lookupA s.metadata key with
  | none => (s, false)
  | some md =>
    let s1 : Store := { s with files := eraseA s.files md.publicKey }
    let s2 : Store := { s1 with metadata := eraseA s1.metadata md.publicKey }
    let s3 : Store := { s2 with metadata := eraseA s2.metadata key }
    (s3, true)

/-- The reference timestamp used by `getInactiveFiles`:
`lastAccessed || createdAt` (a parsed `Date` is always truthy, so the
fallback fires exactly when `lastAccessed` is `null`). -/
def referenceDate (md : Metadata) : Int :=
  match md.lastAccessed with
  | some t => t
  | none => md.createdAt

/-- `LocalFileSystemProvider.getInactiveFiles(inactiveSince)`.  Scans every
`<key>.json` in the metadata folder, keeps an entry only when the record's
`privateKey` equals the key taken from the filename and the reference
timestamp is strictly before `inactiveSince`, and collects
`{privateKey: record.privateKey}`. -/
def getInactiveFiles (s : Store) (inactiveSince : Int) : List String :=
  (s.metadata.filter
    (fun e => e.2.privateKey == e.1 && decide (referenceDate e.2 < inactiveSince))).map
    (fun e => e.2.privateKey)

/-- `uploadFile` with failure injection for its three writes, in source
order: the content write (`f1`), the public-key metadata write (`f2`), the
private-key metadata write (`f3`).  A failing `fs.writeFile` throws — the
error propagates out of `uploadFile` (there is no `try`/`catch` in the
source) — and the `Except.error` carries the filesystem state at the moment
of the throw: writes performed before the failing step persist. -/
def uploadFileF (s : Store) (pk sk : String) (content : List Nat)
    (originalName mimeType : String) (now : Int) (f1 f2 f3 : Bool) :
    Except Store (Store × String × String) :=
  if f1 then Except.error s
  else
    let s1 : Store := { s with files := insertA s.files pk content }
    let md : Metadata :=
      { publicKey := pk, privateKey := sk,
        originalName := originalName, mimeType := mimeType,
        createdAt := now, lastAccessed := none, fileSize := content.length }
    if f2 then Except.error s1
    else
      let s2 : Store := { s1 with metadata := insertA s1.metadata pk md }
      if f3 then Except.error s2
      else
        let s3 : Store := { s2 with metadata := insertA s2.metadata sk md }
        Except.ok (s3, pk, sk)

end LocalFS

namespace GCS

/-- The metadata record written by the cloud provider's `uploadFile`
(`GoogleCloudStorageProvider.uploadFile`): the same fields as the local
provider plus `filePath`, the bucket path of the content object.  The
source reads it as `metadata.filePath || this._getFilePath(...)`, so it is
modelled as an `Option` with that fallback. -/
structure Metadata where
  publicKey : String
  privateKey : String
  originalName : String
  mimeType : String
  createdAt : Int
  lastAccessed : Option Int
  fileSize : Nat
  filePath : Option String
deriving Repr, DecidableEq

/-- The observable state of the bucket: content objects keyed by their full
object path (`<filePrefix><key>`, default `files/`), and metadata objects
keyed by `<key>` of `<metadataPrefix><key>.json`. -/
structure Store where
  objects : List (String × List Nat)
  metadata : List (String × Metadata)
deriving Repr, DecidableEq

/-- `_getFilePath(key)` with the default `filePrefix` of `files/`. -/
def getFilePath (key : String) : String :=
  "files/" ++ key

/-- `GoogleCloudStorageProvider.uploadFile(fileBuffer, originalName,
mimeType)`: saves the content object at `_getFilePath(publicKey)`, then the
metadata record (including `filePath`) under the public key and under the
private key. -/
def uploadFile (s : Store) (keys : String × String) (content : List Nat)
    (originalName mimeType : String) (now : Int) : Store × String × String :=
  let publicKey := keys.1
  let privateKey := keys.2
  let filePath := getFilePath publicKey
  let s1 : Store := { s with objects := insertA s.objects filePath content }
  let md : Metadata :=
    { publicKey := publicKey, privateKey := privateKey,
      originalName := originalName, mimeType := mimeType,
      createdAt := now, lastAccessed := none, fileSize := content.length,
      filePath := some filePath }
  let s2 : Store := { s1 with metadata := insertA s1.metadata publicKey md }
  let s3 : Store := { s2 with metadata := insertA s2.metadata privateKey md }
  (s3, publicKey, privateKey)

/-- `GoogleCloudStorageProvider.downloadFile(publicKey)`: fails with
`File not found` when no metadata object exists under the supplied key;
otherwise downloads the content at `metadata.filePath ||
_getFilePath(suppliedKey)` (a raw error if absent), updates `lastAccessed`
on the record under the supplied key and under the record's `privateKey`,
and returns the buffer with `mimeType` and `originalName`. -/
def downloadFile (s : Store) (key : String) (now : Int) :
    Except LocalFS.DownloadError (Store × List Nat × String × String) :=
  match lookupA s.metadata key with
  | none => Except.error LocalFS.DownloadError.fileNotFound
  | some md =>
    let filePath := md.filePath.getD (getFilePath key)
    match lookupA s.objects filePath with
    | none => Except.error LocalFS.DownloadError.readError
    | some buffer =>
      let md' : Metadata := { md with lastAccessed := some now }
      let s1 : Store := { s with metadata := insertA s.metadata key md' }
      let s2 : Store := { s1 with metadata := insertA s1.metadata md.privateKey md' }
      Except.ok (s2, buffer, md.mimeType, md.originalName)

/-- `GoogleCloudStorageProvider.deleteFile(privateKey)`: returns `false` if
no metadata object exists (or is unreadable) under the supplied key;
otherwise deletes the content object at `metadata.filePath ||
_getFilePath(record.publicKey)`, the metadata object of `record.publicKey`
and the metadata object of the supplied key (each delete error ignored),
and returns `true`. -/
def deleteFile (s : Store) (key : String) : Store × Bool :=
  match lookupA s.metadata key with
  | none => (s, false)
  | some md =>
    let filePath := md.filePath.getD (getFilePath md.publicKey)
    let s1 : Store := { s with objects := eraseA s.objects filePath }
    let s2 : Store := { s1 with metadata := eraseA s1.metadata md.publicKey }
    let s3 : Store := { s2 with metadata := eraseA s2.metadata key }
    (s3, true)

/-- Reference timestamp of the cloud provider's `getInactiveFiles`, the
same `lastAccessed || createdAt` rule as the local provider. -/
def referenceDate (md : Metadata) : Int :=
  match md.lastAccessed with
  | some t => t
  | none => md.createdAt

/-- `GoogleCloudStorageProvider.getInactiveFiles(inactiveSince)`: lists the
metadata objects, keeps one only when the record's `privateKey` equals the
key recovered from the object name and the reference timestamp is strictly
before `inactiveSince`, and collects `{privateKey: record.privateKey}`. -/
def getInactiveFiles (s : Store) (inactiveSince : Int) : List String :=
  (s.metadata.filter
    (fun e => e.2.privateKey == e.1 && decide (referenceDate e.2 < inactiveSince))).map
    (fun e => e.2.privateKey)

/-- The cloud provider's `uploadFile` with failure injection for its three
writes, in source order: the content `file.save` (`f1`), the public-key
metadata `save` (`f2`), the private-key metadata `save` (`f3`).  A rejected
`save` propagates out of `uploadFile` (there is no `try`/`catch` in the
source) and the `Except.error` carries the bucket state at the moment of
the rejection: writes performed before the failing step persist. -/
def uploadFileF (s : Store) (pk sk : String) (content : List Nat)
    (originalName mimeType : String) (now : Int) (f1 f2 f3 : Bool) :
    Except Store (Store × String × String) :=
  if f1 then Except.error s
  else
    let filePath := getFilePath pk
    let s1 : Store := { s with objects := insertA s.objects filePath content }
    let md : Metadata :=
      { publicKey := pk, privateKey := sk,
        originalName := originalName, mimeType := mimeType,
        createdAt := now, lastAccessed := none, fileSize := content.length,
        filePath := some filePath }
    if f2 then Except.error s1
    else
      let s2 : Store := { s1 with metadata := insertA s1.metadata pk md }
      if f3 then Except.error s2
      else
        let s3 : Store := { s2 with metadata := insertA s2.metadata sk md }
        Except.ok (s3, pk, sk)

end GCS

namespace CleanupJob

/-- `true` exactly when a `deleteFile` call completed and resolved `true`:
the only case in which `runCleanup` increments `deletedCount`. -/
def isDeleteSuccess : Except Unit Bool → Bool
  | Except.ok true => true
  | _ => false

/-- The deletion loop of `runCleanup`: each `deleteFile` call sits in its
own `try`/`catch`, so a rejected promise (`Except.error`) is logged and
skipped and the loop continues with the remaining candidates. -/
def countDeleted (del : String → Except Unit Bool) : List String → Nat
  | [] => 0
  | k :: rest =>
    match del k with
    | Except.ok true => 1 + countDeleted del rest
    | _ => countDeleted del rest

/-- `runCleanup` of `src/jobs/cleanupJob.js`, with the storage provider
abstracted by its observable outcomes for this cycle: `enum` is the result
of `getInactiveFiles` (the list of candidate private keys, or a rejection)
and `del` the outcome of `deleteFile` per key.  The outer `try`/`catch`
turns a failed enumeration into a return of `0`; otherwise the cycle
returns the number of deletions that resolved `true`. -/
def runCleanup (enum : Except Unit (List String))
    (del : String → Except Unit Bool) : Nat :=
  match enum with
  | Except.error _ => 0
  | Except.ok files => countDeleted del files

end CleanupJob

namespace UsageLimiter

/-- One record of the `dailyUsageStore`: `{upload, download, lastReset}`. -/
structure UsageRecord where
  upload : Nat
  download : Nat
  lastReset : String
deriving Repr, DecidableEq

/-- The in-memory `dailyUsageStore` map, keyed by `getUsageKey`. -/
abbrev UsageMap : Type := List (String × UsageRecord)

/-- `getUsageKey(ip)`: the map key `` `${ip}:${getTodayKey()}` ``; the
current day string `getTodayKey()` is passed in as `today`. -/
def getUsageKey (ip today : String) : String :=
  ip ++ ":" ++ today

/-- `getUsageRecord(ip)`: returns the record for `(ip, today)`, inserting a
zeroed record first when none exists; the possibly-extended map is returned
alongside. -/
def getUsageRecord (m : UsageMap) (ip today : String) : UsageMap × UsageRecord :=
  let key := getUsageKey ip today
  match lookupA m key with
  | some r => (m, r)
  | none =>
    let r : UsageRecord := { upload := 0, download := 0, lastReset := today }
    (insertA m key r, r)

/-- The accumulated upload bytes of `(ip, today)`: the record's `upload`
counter, `0` when no record exists. -/
def uploadUsage (m : UsageMap) (ip today : String) : Nat :=
  match lookupA m (getUsageKey ip today) with
  | some r => r.upload
  | none => 0

/-- The accumulated download bytes of `(ip, today)`. -/
def downloadUsage (m : UsageMap) (ip today : String) : Nat :=
  match lookupA m (getUsageKey ip today) with
  | some r => r.download
  | none => 0

/-- The admission check of the `uploadLimiter` middleware: responds 429
(deny, `false`) when `usage.upload >= UPLOAD_LIMIT`, else calls `next()`
(admit, `true`).  The body of the incoming request plays no part in the
decision.  Returns the map updated by `getUsageRecord`. -/
def uploadLimiter (m : UsageMap) (ip today : String) (uploadLimit : Nat) :
    UsageMap × Bool :=
  let p := getUsageRecord m ip today
  (p.1, if p.2.upload ≥ uploadLimit then false else true)

/-- The admission check of the `downloadLimiter` middleware: responds 429
(deny) when `usage.download >= DOWNLOAD_LIMIT`, else calls `next()`.  The
size of the file about to be served is unknown here and plays no part. -/
def downloadLimiter (m : UsageMap) (ip today : String) (downloadLimit : Nat) :
    UsageMap × Bool :=
  let p := getUsageRecord m ip today
  (p.1, if p.2.download ≥ downloadLimit then false else true)

/-- One `POST /files` request by `ip` carrying an `n`-byte file, through the
`uploadLimiter` middleware and the upload route (`router.post('/files')`):
if the check denies, the middleware responds 429 and the route never runs.
Otherwise the middleware monkey-patches BOTH `res.send` and `res.json`
(each adding `req.file.size` to the origin's record) and the route stores
the file and finishes with a single `res.status(201).json(...)`.  That call
runs the patched `json`, which adds `req.file.size` and calls the original
Express `res.json` — and Express's `res.json` ends with
`return this.send(body)`, where `this.send` resolves to the patched `send`
instance property, which adds `req.file.size` AGAIN before delegating to
the original `send`.  A completed upload therefore increments the counter
twice.  Returns the updated map and whether the request was admitted. -/
def processUpload (m : UsageMap) (ip today : String) (fileSize uploadLimit : Nat) :
    UsageMap × Bool :=
  let p := getUsageRecord m ip today
  let m1 := p.1
  let usage := p.2
  if usage.upload ≥ uploadLimit then
    (m1, false)
  else
    let key := getUsageKey ip today
    let usage1 : UsageRecord := { usage with upload := usage.upload + fileSize }
    let m2 := insertA m1 key usage1
    let usage2 : UsageRecord := { usage1 with upload := usage1.upload + fileSize }
    let m3 := insertA m2 key usage2
    (m3, true)

end UsageLimiter

/-! ## Association-list lemmas -/

theorem lookupA_insertA_self {α : Type} (m : List (String × α)) (k : String) (v : α) :
    lookupA (insertA m k v) k = some v := by
  induction m with
  | nil => simp [insertA, lookupA]
  | cons hd tl ih =>
    by_cases h : hd.1 = k
    · simp [insertA, lookupA, h]
    · simp [insertA, lookupA, h, ih]

theorem lookupA_insertA_ne {α : Type} (m : List (String × α)) (k k' : String) (v : α)
    (h : k' ≠ k) : lookupA (insertA m k v) k' = lookupA m k' := by
  have h' : k ≠ k' := Ne.symm h
  induction m with
  | nil => simp [insertA, lookupA, h']
  | cons hd tl ih =>
    by_cases hh : hd.1 = k
    · subst hh
      simp [insertA, lookupA, h']
    · simp only [insertA, hh, if_false, lookupA]
      by_cases hk : hd.1 = k'
      · simp [hk]
      · simp [hk, ih]

theorem lookupA_eraseA_ne {α : Type} (m : List (String × α)) (k k' : String)
    (h : k' ≠ k) : lookupA (eraseA m k) k' = lookupA m k' := by
  have h' : k ≠ k' := Ne.symm h
  induction m with
  | nil => simp [eraseA, lookupA]
  | cons hd tl ih =>
    by_cases hh : hd.1 = k
    · subst hh
      simp [eraseA, lookupA, h']
    · simp only [eraseA, hh, if_false, lookupA]
      by_cases hk : hd.1 = k'
      · simp [hk]
      · simp [hk, ih]

theorem lookupA_eq_none_of_not_mem {α : Type} (m : List (String × α)) (k : String)
    (h : k ∉ m.map Prod.fst) : lookupA m k = none := by
  induction m with
  | nil => rfl
  | cons hd tl ih =>
    simp only [List.map_cons, List.mem_cons] at h
    push_neg at h
    simp [lookupA, Ne.symm h.1, ih h.2]

theorem mem_fst_of_mem_eraseA {α : Type} (m : List (String × α)) (k x : String)
    (h : x ∈ (eraseA m k).map Prod.fst) : x ∈ m.map Prod.fst := by
  induction m with
  | nil => simp [eraseA] at h
  | cons hd tl ih =>
    by_cases hh : hd.1 = k
    · simp only [eraseA, hh, if_true] at h
      simp [h]
    · simp only [eraseA, hh, if_false, List.map_cons, List.mem_cons] at h ⊢
      rcases h with h | h
      · exact Or.inl h
      · exact Or.inr (ih h)

theorem wfMap_eraseA {α : Type} (m : List (String × α)) (k : String)
    (h : wfMap m) : wfMap (eraseA m k) := by
  induction m with
  | nil => simpa [eraseA] using h
  | cons hd tl ih =>
    rw [wfMap, List.map_cons, List.nodup_cons] at h
    by_cases hh : hd.1 = k
    · simpa [eraseA, hh, wfMap] using h.2
    · rw [wfMap, eraseA, if_neg hh, List.map_cons, List.nodup_cons]
      exact ⟨fun hm => h.1 (mem_fst_of_mem_eraseA tl k hd.1 hm), ih h.2⟩

theorem lookupA_eraseA_self {α : Type} (m : List (String × α)) (k : String)
    (h : wfMap m) : lookupA (eraseA m k) k = none := by
  induction m with
  | nil => rfl
  | cons hd tl ih =>
    rw [wfMap, List.map_cons, List.nodup_cons] at h
    by_cases hh : hd.1 = k
    · rw [eraseA, if_pos hh]
      exact lookupA_eq_none_of_not_mem tl k (hh ▸ h.1)
    · rw [eraseA, if_neg hh, lookupA, if_neg hh]
      exact ih h.2

theorem lookupA_mem_fst {α : Type} (m : List (String × α)) (k : String) (v : α)
    (h : lookupA m k = some v) : k ∈ m.map Prod.fst := by
  induction m with
  | nil => simp [lookupA] at h
  | cons hd tl ih =>
    by_cases hh : hd.1 = k
    · simp [hh]
    · rw [lookupA, if_neg hh] at h
      simp [ih h]

/-! ## The inactive-file scan, generically

Both providers' `getInactiveFiles` are the same scan over a directory of
metadata records: keep an entry when the record's private key equals the
key from the filename and its reference timestamp is strictly before the
cutoff, and emit the record's private key.  The two lemmas below
characterise membership and duplicate-freedom of that scan for any record
type `β` with projections `priv` and `ref`. -/

theorem mem_scan_iff {β : Type} (priv : β → String) (ref : β → Int)
    (cutoff : Int) (k : String) :
    ∀ m : List (String × β), (m.map Prod.fst).Nodup →
      (k ∈ (m.filter
              (fun e => priv e.2 == e.1 && decide (ref e.2 < cutoff))).map
              (fun e => priv e.2)
        ↔ ∃ md, lookupA m k = some md ∧ priv md = k ∧ ref md < cutoff) := by
  intro m
  induction m with
  | nil =>
    intro _
    simp [lookupA]
  | cons hd tl ih =>
    intro hwf
    rw [List.map_cons, List.nodup_cons] at hwf
    obtain ⟨hnotmem, hnd⟩ := hwf
    have ihh := ih hnd
    by_cases hcond : (priv hd.2 == hd.1 && decide (ref hd.2 < cutoff)) = true
    · rw [List.filter_cons, if_pos hcond, List.map_cons]
      rw [Bool.and_eq_true, beq_iff_eq, decide_eq_true_eq] at hcond
      by_cases hk : hd.1 = k
      · constructor
        · intro _
          exact ⟨hd.2, by rw [lookupA, if_pos hk], by rw [hcond.1, hk], hcond.2⟩
        · intro _
          rw [List.mem_cons]
          exact Or.inl (by rw [hcond.1, hk])
      · rw [List.mem_cons]
        constructor
        · intro hmem
          rcases hmem with hmem | hmem
          · exact absurd (hmem ▸ hcond.1).symm hk
          · obtain ⟨md, hmd, hpk, href⟩ := ihh.mp hmem
            exact ⟨md, by rw [lookupA, if_neg hk]; exact hmd, hpk, href⟩
        · intro ⟨md, hmd, hpk, href⟩
          rw [lookupA, if_neg hk] at hmd
          exact Or.inr (ihh.mpr ⟨md, hmd, hpk, href⟩)
    · rw [List.filter_cons, if_neg hcond]
      by_cases hk : hd.1 = k
      · constructor
        · intro hmem
          obtain ⟨md, hmd, hpk, href⟩ := ihh.mp hmem
          have : k ∈ tl.map Prod.fst := lookupA_mem_fst tl k md hmd
          exact absurd (hk ▸ this) hnotmem
        · intro ⟨md, hmd, hpk, href⟩
          rw [lookupA, if_pos hk] at hmd
          cases hmd
          exact absurd (by simp [hpk, hk, href]) hcond
      · rw [ihh]
        constructor
        · intro ⟨md, hmd, hpk, href⟩
          exact ⟨md, by rw [lookupA, if_neg hk]; exact hmd, hpk, href⟩
        · intro ⟨md, hmd, hpk, href⟩
          rw [lookupA, if_neg hk] at hmd
          exact ⟨md, hmd, hpk, href⟩

theorem scan_nodup {β : Type} (priv : β → String) (ref : β → Int)
    (cutoff : Int) :
    ∀ m : List (String × β), (m.map Prod.fst).Nodup →
      ((m.filter
          (fun e => priv e.2 == e.1 && decide (ref e.2 < cutoff))).map
          (fun e => priv e.2)).Nodup := by
  intro m
  induction m with
  | nil =>
    intro _
    simp
  | cons hd tl ih =>
    intro hwf
    rw [List.map_cons, List.nodup_cons] at hwf
    obtain ⟨hnotmem, hnd⟩ := hwf
    by_cases hcond : (priv hd.2 == hd.1 && decide (ref hd.2 < cutoff)) = true
    · rw [List.filter_cons, if_pos hcond, List.map_cons, List.nodup_cons]
      refine ⟨fun hmem => ?_, ih hnd⟩
      obtain ⟨md, hmd, hpk, href⟩ := (mem_scan_iff priv ref cutoff (priv hd.2) tl hnd).mp hmem
      rw [Bool.and_eq_true, beq_iff_eq] at hcond
      have : hd.1 ∈ tl.map Prod.fst := by
        have h2 := lookupA_mem_fst tl (priv hd.2) md hmd
        rwa [hcond.1] at h2
      exact hnotmem this
    · rw [List.filter_cons, if_neg hcond]
      exact ih hnd

/-! ## Further helper lemmas -/

theorem lookupA_insertA_insertA_self {α : Type} (m : List (String × α))
    (k k' : String) (v : α) :
    lookupA (insertA (insertA m k v) k' v) k = some v := by
  by_cases h : k' = k
  · rw [h, lookupA_insertA_self]
  · rw [lookupA_insertA_ne _ _ _ _ (Ne.symm h), lookupA_insertA_self]

/-- An admitted upload (`usage.upload < UPLOAD_LIMIT`) reaches the route,
and its completion fires both patched response methods, adding the file
size to the origin's counter twice. -/
theorem processUpload_admitted (m : UsageLimiter.UsageMap) (ip today : String)
    (n uploadLimit : Nat)
    (h : UsageLimiter.uploadUsage m ip today < uploadLimit) :
    (UsageLimiter.processUpload m ip today n uploadLimit).2 = true
  ∧ UsageLimiter.uploadUsage (UsageLimiter.processUpload m ip today n uploadLimit).1 ip today
      = UsageLimiter.uploadUsage m ip today + n + n := by
  cases hlook : lookupA m (UsageLimiter.getUsageKey ip today) with
  | some r =>
    have hu : UsageLimiter.uploadUsage m ip today = r.upload := by
      simp [UsageLimiter.uploadUsage, hlook]
    rw [hu] at h
    have hnot : ¬ r.upload ≥ uploadLimit := Nat.not_le.mpr h
    simp [UsageLimiter.processUpload, UsageLimiter.getUsageRecord, hlook, hnot,
      UsageLimiter.uploadUsage, lookupA_insertA_self, hu]
  | none =>
    have hu : UsageLimiter.uploadUsage m ip today = 0 := by
      simp [UsageLimiter.uploadUsage, hlook]
    rw [hu] at h
    have hnot : ¬ (0 : Nat) ≥ uploadLimit := Nat.not_le.mpr h
    simp [UsageLimiter.processUpload, UsageLimiter.getUsageRecord, hlook, hnot,
      UsageLimiter.uploadUsage, lookupA_insertA_self, hu]

/-- The cleanup loop counts exactly the candidates whose deletion resolved
`true`, independently of any failed or `false` deletions among the
others. -/
theorem countDeleted_eq_countP (del : String → Except Unit Bool) :
    ∀ l : List String, CleanupJob.countDeleted del l
      = l.countP (fun f => CleanupJob.isDeleteSuccess (del f)) := by
  intro l
  induction l with
  | nil => rfl
  | cons k rest ih =>
    rw [List.countP_cons]
    cases hdel : del k with
    | error e =>
      simp [CleanupJob.countDeleted, CleanupJob.isDeleteSuccess, hdel, ih]
    | ok b =>
      cases b
      · simp [CleanupJob.countDeleted, CleanupJob.isDeleteSuccess, hdel, ih]
      · simp [CleanupJob.countDeleted, CleanupJob.isDeleteSuccess, hdel, ih]
        omega

/-! ## The claims -/

/-- C1: the claim states that deleting with an object's PUBLIC key does not
delete the object and that it stays retrievable under the public key.  The
code violates this: because `uploadFile` persists the metadata record under
both keys, `deleteFile` applied to the public key finds a record, deletes
the content blob and the public-key metadata, and returns `true`; a
subsequent `downloadFile` under the public key fails with `File not found`.
Evaluated here on a one-object store (publicKey `a`, privateKey `b`,
content `[7]`) for both providers. -/
theorem c1_delete_by_public_key_removes_object :
    (LocalFS.deleteFile (LocalFS.uploadFile ⟨[], []⟩ ("a", "b") [7] "nm" "mt" 0).1 "a").2 = true
  ∧ LocalFS.downloadFile
      (LocalFS.deleteFile (LocalFS.uploadFile ⟨[], []⟩ ("a", "b") [7] "nm" "mt" 0).1 "a").1 "a" 1
      = Except.error LocalFS.DownloadError.fileNotFound
  ∧ (GCS.deleteFile (GCS.uploadFile ⟨[], []⟩ ("a", "b") [7] "nm" "mt" 0).1 "a").2 = true
  ∧ GCS.downloadFile
      (GCS.deleteFile (GCS.uploadFile ⟨[], []⟩ ("a", "b") [7] "nm" "mt" 0).1 "a").1 "a" 1
      = Except.error LocalFS.DownloadError.fileNotFound := by
  refine ⟨rfl, rfl, rfl, rfl⟩

/-- C2 counterexample: on an empty store, a `put` whose private-key metadata
write fails (keys `a`/`b`, content `[7]`) returns the failure, but the
error state still contains the content blob — observable state left
behind, contradicting the claim that already-written artifacts are removed
before returning.  Evaluated in both providers. -/
theorem c2_partial_state_counterexample :
    LocalFS.uploadFileF ⟨[], []⟩ "a" "b" [7] "nm" "mt" 0 false false true
      = Except.error ⟨[("a", [7])], [("a", ⟨"a", "b", "nm", "mt", 0, none, 1⟩)]⟩
  ∧ lookupA ([("a", [7])] : List (String × List Nat)) "a" = some [7]
  ∧ GCS.uploadFileF ⟨[], []⟩ "a" "b" [7] "nm" "mt" 0 false false true
      = Except.error
          ⟨[("files/a", [7])], [("a", ⟨"a", "b", "nm", "mt", 0, none, 1, some "files/a"⟩)]⟩
  ∧ lookupA ([("files/a", [7])] : List (String × List Nat)) "files/a" = some [7] := by
  refine ⟨rfl, rfl, rfl, rfl⟩

/-- C2 (amended): in both providers, if any of put's underlying writes
fails (the content write or either metadata-record write), put propagates
the failure, but it performs no rollback: the state returned with the
error retains exactly the writes performed before the failing step. -/
theorem c2_no_rollback_on_failed_write (s : LocalFS.Store) (g : GCS.Store)
    (pk sk : String) (content : List Nat) (nm mt : String) (now : Int)
    (f2 f3 : Bool) :
    LocalFS.uploadFileF s pk sk content nm mt now true f2 f3 = Except.error s
  ∧ LocalFS.uploadFileF s pk sk content nm mt now false true f3
      = Except.error { s with files := insertA s.files pk content }
  ∧ LocalFS.uploadFileF s pk sk content nm mt now false false true
      = Except.error
          { files := insertA s.files pk content,
            metadata := insertA s.metadata pk
              { publicKey := pk, privateKey := sk, originalName := nm,
                mimeType := mt, createdAt := now, lastAccessed := none,
                fileSize := content.length } }
  ∧ GCS.uploadFileF g pk sk content nm mt now true f2 f3 = Except.error g
  ∧ GCS.uploadFileF g pk sk content nm mt now false true f3
      = Except.error { g with objects := insertA g.objects (GCS.getFilePath pk) content }
  ∧ GCS.uploadFileF g pk sk content nm mt now false false true
      = Except.error
          { objects := insertA g.objects (GCS.getFilePath pk) content,
            metadata := insertA g.metadata pk
              { publicKey := pk, privateKey := sk, originalName := nm,
                mimeType := mt, createdAt := now, lastAccessed := none,
                fileSize := content.length,
                filePath := some (GCS.getFilePath pk) } } := by
  refine ⟨rfl, rfl, rfl, rfl, rfl, rfl⟩

/-- C3: the claim states that `get` with an object's PRIVATE key does not
return the stored content.  The cloud provider violates it: the metadata
record is stored under the private key too and carries `filePath`, so
`downloadFile` with the private key resolves the record and returns the
content.  (In the local provider the same call fails, but with a raw read
error rather than `File not found`, since the blob lives under the public
key only.)  Evaluated on a one-object store (publicKey `a`, privateKey
`b`, content `[7]`). -/
theorem c3_private_key_read_returns_content :
    Except.map (fun r => r.2)
      (GCS.downloadFile (GCS.uploadFile ⟨[], []⟩ ("a", "b") [7] "nm" "mt" 0).1 "b" 1)
      = Except.ok ([7], "mt", "nm")
  ∧ LocalFS.downloadFile (LocalFS.uploadFile ⟨[], []⟩ ("a", "b") [7] "nm" "mt" 0).1 "b" 1
      = Except.error LocalFS.DownloadError.readError := by
  refine ⟨rfl, rfl⟩

/-- C4: the claim states that a completed `n`-byte upload increases the
origin's daily upload counter by exactly `n`, updated once per transfer.
The code violates this: `uploadLimiter` patches both `res.send` and
`res.json`, and Express's `res.json` delegates to `this.send`, so the
route's single terminal `res.status(201).json(...)` fires both patched
wrappers and adds `req.file.size` twice.  Evaluated at the failing input: a
fresh origin (usage 0, ceiling 10) completes a 5-byte upload and its
counter becomes 10, not 5 — while the repo's own unit test
(`tests/unit/middleware/usageLimiter.test.js`, whose jest mock of
`res.json` does not delegate to `send`) asserts the counter equals the file
size after one upload. -/
theorem c4_upload_counter_double_count :
    (UsageLimiter.processUpload [] "1.2.3.4" "2026-9-12" 5 10).2 = true
  ∧ UsageLimiter.uploadUsage
      (UsageLimiter.processUpload [] "1.2.3.4" "2026-9-12" 5 10).1 "1.2.3.4" "2026-9-12"
      = 10
  ∧ ¬ UsageLimiter.uploadUsage
      (UsageLimiter.processUpload [] "1.2.3.4" "2026-9-12" 5 10).1 "1.2.3.4" "2026-9-12"
      = 5 := by
  refine ⟨by decide, by decide, by decide⟩

/-- C5: in both providers, deleting a stored object twice with the same
private key returns `true` then `false`, and `delete` returns `false` (not
an error) whenever no metadata record exists under the supplied key. -/
theorem c5_delete_idempotent :
    (∀ (s : LocalFS.Store) (sk : String) (md : LocalFS.Metadata),
       wfMap s.metadata → lookupA s.metadata sk = some md →
       (LocalFS.deleteFile s sk).2 = true
       ∧ (LocalFS.deleteFile (LocalFS.deleteFile s sk).1 sk).2 = false)
  ∧ (∀ (s : LocalFS.Store) (k : String),
       lookupA s.metadata k = none → LocalFS.deleteFile s k = (s, false))
  ∧ (∀ (g : GCS.Store) (gk : String) (gmd : GCS.Metadata),
       wfMap g.metadata → lookupA g.metadata gk = some gmd →
       (GCS.deleteFile g gk).2 = true
       ∧ (GCS.deleteFile (GCS.deleteFile g gk).1 gk).2 = false)
  ∧ (∀ (g : GCS.Store) (k : String),
       lookupA g.metadata k = none → GCS.deleteFile g k = (g, false)) := by
  refine ⟨?_, ?_, ?_, ?_⟩
  · intro s sk md hwf h
    constructor
    · simp [LocalFS.deleteFile, h]
    · have hwf2 : wfMap (eraseA s.metadata md.publicKey) := wfMap_eraseA _ _ hwf
      have hnone : lookupA (eraseA (eraseA s.metadata md.publicKey) sk) sk = none :=
        lookupA_eraseA_self _ _ hwf2
      simp [LocalFS.deleteFile, h, hnone]
  · intro s k hk
    simp [LocalFS.deleteFile, hk]
  · intro g gk gmd hwf h
    constructor
    · simp [GCS.deleteFile, h]
    · have hwf2 : wfMap (eraseA g.metadata gmd.publicKey) := wfMap_eraseA _ _ hwf
      have hnone : lookupA (eraseA (eraseA g.metadata gmd.publicKey) gk) gk = none :=
        lookupA_eraseA_self _ _ hwf2
      simp [GCS.deleteFile, h, hnone]
  · intro g k hk
    simp [GCS.deleteFile, hk]

/-- C5 witness: a store holding one object (publicKey `a`, privateKey `b`)
with its two metadata copies; deleting with `b` returns `true` and deleting
again returns `false`. -/
theorem c5_delete_idempotent_witness :
    wfMap (LocalFS.Store.mk [("a", [7])]
        [("a", ⟨"a", "b", "nm", "mt", 0, none, 1⟩),
         ("b", ⟨"a", "b", "nm", "mt", 0, none, 1⟩)]).metadata
  ∧ lookupA (LocalFS.Store.mk [("a", [7])]
        [("a", ⟨"a", "b", "nm", "mt", 0, none, 1⟩),
         ("b", ⟨"a", "b", "nm", "mt", 0, none, 1⟩)]).metadata "b"
      = some (⟨"a", "b", "nm", "mt", 0, none, 1⟩ : LocalFS.Metadata)
  ∧ ((LocalFS.deleteFile (LocalFS.Store.mk [("a", [7])]
        [("a", ⟨"a", "b", "nm", "mt", 0, none, 1⟩),
         ("b", ⟨"a", "b", "nm", "mt", 0, none, 1⟩)]) "b").2 = true
     ∧ (LocalFS.deleteFile (LocalFS.deleteFile (LocalFS.Store.mk [("a", [7])]
        [("a", ⟨"a", "b", "nm", "mt", 0, none, 1⟩),
         ("b", ⟨"a", "b", "nm", "mt", 0, none, 1⟩)]) "b").1 "b").2 = false) :=
  ⟨by decide, by decide,
   c5_delete_idempotent.1
     (LocalFS.Store.mk [("a", [7])]
       [("a", ⟨"a", "b", "nm", "mt", 0, none, 1⟩),
        ("b", ⟨"a", "b", "nm", "mt", 0, none, 1⟩)])
     "b" ⟨"a", "b", "nm", "mt", 0, none, 1⟩ (by decide) (by decide)⟩

/-- C6: put/get round-trip — uploading a buffer and downloading with the
returned public key yields exactly the original bytes together with the
stored `mimeType` and `originalName`, from any starting store and for any
generated key pair. -/
theorem c6_put_get_roundtrip (s : LocalFS.Store) (pk sk : String)
    (content : List Nat) (nm mt : String) (now t : Int) :
    Except.map (fun r => r.2)
      (LocalFS.downloadFile (LocalFS.uploadFile s (pk, sk) content nm mt now).1 pk t)
    = Except.ok (content, mt, nm) := by
  simp only [LocalFS.uploadFile, LocalFS.downloadFile,
    lookupA_insertA_insertA_self, lookupA_insertA_self]
  rfl

/-- C7: in both providers, a stored object (metadata record present under
its private key) appears in `getInactiveFiles cutoff` exactly when its
reference timestamp (`lastAccessed` if set, else `createdAt`) is strictly
earlier than the cutoff. -/
theorem c7_inactive_scan_cutoff (cutoff : Int) :
    (∀ (s : LocalFS.Store) (sk : String) (md : LocalFS.Metadata),
       wfMap s.metadata → lookupA s.metadata sk = some md → md.privateKey = sk →
       (sk ∈ LocalFS.getInactiveFiles s cutoff ↔ LocalFS.referenceDate md < cutoff))
  ∧ (∀ (s : GCS.Store) (sk : String) (md : GCS.Metadata),
       wfMap s.metadata → lookupA s.metadata sk = some md → md.privateKey = sk →
       (sk ∈ GCS.getInactiveFiles s cutoff ↔ GCS.referenceDate md < cutoff)) := by
  constructor
  · intro s sk md hwf h hpk
    rw [LocalFS.getInactiveFiles,
      mem_scan_iff LocalFS.Metadata.privateKey LocalFS.referenceDate cutoff sk s.metadata hwf]
    constructor
    · rintro ⟨md', hmd', _, href⟩
      rw [h] at hmd'
      cases hmd'
      exact href
    · intro href
      exact ⟨md, h, hpk, href⟩
  · intro s sk md hwf h hpk
    rw [GCS.getInactiveFiles,
      mem_scan_iff GCS.Metadata.privateKey GCS.referenceDate cutoff sk s.metadata hwf]
    constructor
    · rintro ⟨md', hmd', _, href⟩
      rw [h] at hmd'
      cases hmd'
      exact href
    · intro href
      exact ⟨md, h, hpk, href⟩

/-- C7 witness: a store with one object (privateKey `b`, never accessed,
created at time 0) and a cutoff of 5: the object is listed, and indeed its
reference timestamp 0 is before 5. -/
theorem c7_inactive_scan_cutoff_witness :
    wfMap (LocalFS.Store.mk [("a", [7])]
        [("b", ⟨"a", "b", "nm", "mt", 0, none, 1⟩)]).metadata
  ∧ lookupA (LocalFS.Store.mk [("a", [7])]
        [("b", ⟨"a", "b", "nm", "mt", 0, none, 1⟩)]).metadata "b"
      = some (⟨"a", "b", "nm", "mt", 0, none, 1⟩ : LocalFS.Metadata)
  ∧ (LocalFS.Metadata.privateKey ⟨"a", "b", "nm", "mt", 0, none, 1⟩) = "b"
  ∧ ("b" ∈ LocalFS.getInactiveFiles (LocalFS.Store.mk [("a", [7])]
        [("b", ⟨"a", "b", "nm", "mt", 0, none, 1⟩)]) 5
      ↔ LocalFS.referenceDate ⟨"a", "b", "nm", "mt", 0, none, 1⟩ < 5) :=
  ⟨by decide, by decide, by decide,
   (c7_inactive_scan_cutoff 5).1
     (LocalFS.Store.mk [("a", [7])] [("b", ⟨"a", "b", "nm", "mt", 0, none, 1⟩)])
     "b" ⟨"a", "b", "nm", "mt", 0, none, 1⟩ (by decide) (by decide) (by decide)⟩

/-- C8: a cleanup cycle whose enumeration fails reports zero deletions; a
cycle with candidate list `files` returns exactly the number of deletions
that resolved `true`; and the count over `files ++ k :: files2` splits
around `k` — a failing or `false` deletion of `k` contributes nothing but
never prevents the candidates after it from being processed and counted. -/
theorem c8_cleanup_cycle_counts (del : String → Except Unit Bool)
    (files files2 : List String) (k : String) :
    CleanupJob.runCleanup (Except.error ()) del = 0
  ∧ CleanupJob.runCleanup (Except.ok files) del
      = files.countP (fun f => CleanupJob.isDeleteSuccess (del f))
  ∧ CleanupJob.runCleanup (Except.ok (files ++ k :: files2)) del
      = CleanupJob.runCleanup (Except.ok files) del
        + (if CleanupJob.isDeleteSuccess (del k) then 1 else 0)
        + CleanupJob.runCleanup (Except.ok files2) del := by
  refine ⟨rfl, countDeleted_eq_countP del files, ?_⟩
  simp only [CleanupJob.runCleanup, countDeleted_eq_countP, List.countP_append,
    List.countP_cons]
  by_cases hs : CleanupJob.isDeleteSuccess (del k) = true
  · simp [hs]
    omega
  · simp [hs]

/-- C9: the upload (resp. download) admission check denies exactly when the
origin's accumulated upload (resp. download) bytes for the current day
already meet or exceed the configured ceiling, and an origin strictly below
the ceiling is admitted — for uploads regardless of the incoming request's
size `n` (optimistic admission: the check never reads the request body, and
the download check runs before the file size is even known). -/
theorem c9_admission_check (m : UsageLimiter.UsageMap) (ip today : String)
    (upLimit downLimit n : Nat) :
    ((UsageLimiter.uploadLimiter m ip today upLimit).2 = false
       ↔ upLimit ≤ UsageLimiter.uploadUsage m ip today)
  ∧ ((UsageLimiter.downloadLimiter m ip today downLimit).2 = false
       ↔ downLimit ≤ UsageLimiter.downloadUsage m ip today)
  ∧ (UsageLimiter.uploadUsage m ip today < upLimit →
       (UsageLimiter.processUpload m ip today n upLimit).2 = true)
  ∧ (UsageLimiter.downloadUsage m ip today < downLimit →
       (UsageLimiter.downloadLimiter m ip today downLimit).2 = true) := by
  refine ⟨?_, ?_, fun h => (processUpload_admitted m ip today n upLimit h).1, ?_⟩
  · cases hlook : lookupA m (UsageLimiter.getUsageKey ip today) with
    | some r =>
      simp [UsageLimiter.uploadLimiter, UsageLimiter.getUsageRecord, hlook,
        UsageLimiter.uploadUsage]
    | none =>
      simp [UsageLimiter.uploadLimiter, UsageLimiter.getUsageRecord, hlook,
        UsageLimiter.uploadUsage]
  · cases hlook : lookupA m (UsageLimiter.getUsageKey ip today) with
    | some r =>
      simp [UsageLimiter.downloadLimiter, UsageLimiter.getUsageRecord, hlook,
        UsageLimiter.downloadUsage]
    | none =>
      simp [UsageLimiter.downloadLimiter, UsageLimiter.getUsageRecord, hlook,
        UsageLimiter.downloadUsage]
  · intro h
    cases hlook : lookupA m (UsageLimiter.getUsageKey ip today) with
    | some r =>
      have hu : UsageLimiter.downloadUsage m ip today = r.download := by
        simp [UsageLimiter.downloadUsage, hlook]
      rw [hu] at h
      simp [UsageLimiter.downloadLimiter, UsageLimiter.getUsageRecord, hlook,
        Nat.not_le.mpr h]
    | none =>
      have hu : UsageLimiter.downloadUsage m ip today = 0 := by
        simp [UsageLimiter.downloadUsage, hlook]
      rw [hu] at h
      simp [UsageLimiter.downloadLimiter, UsageLimiter.getUsageRecord, hlook,
        Nat.not_le.mpr h]

/-- C9 witness: an origin with 10 upload bytes and 3 download bytes
accumulated, ceilings 10 and 20, and an incoming 7-byte upload: the upload
check denies (10 ≥ 10) and the download check admits (3 < 20). -/
theorem c9_admission_check_witness :
    (((UsageLimiter.uploadLimiter
          [("1.2.3.4:2026-9-12", ⟨10, 3, "2026-9-12"⟩)] "1.2.3.4" "2026-9-12" 10).2 = false
        ↔ 10 ≤ UsageLimiter.uploadUsage
            [("1.2.3.4:2026-9-12", ⟨10, 3, "2026-9-12"⟩)] "1.2.3.4" "2026-9-12")
     ∧ (((UsageLimiter.downloadLimiter
          [("1.2.3.4:2026-9-12", ⟨10, 3, "2026-9-12"⟩)] "1.2.3.4" "2026-9-12" 20).2 = false
        ↔ 20 ≤ UsageLimiter.downloadUsage
            [("1.2.3.4:2026-9-12", ⟨10, 3, "2026-9-12"⟩)] "1.2.3.4" "2026-9-12"))
     ∧ (UsageLimiter.uploadUsage
          [("1.2.3.4:2026-9-12", ⟨10, 3, "2026-9-12"⟩)] "1.2.3.4" "2026-9-12" < 10 →
        (UsageLimiter.processUpload
          [("1.2.3.4:2026-9-12", ⟨10, 3, "2026-9-12"⟩)] "1.2.3.4" "2026-9-12" 7 10).2 = true)
     ∧ (UsageLimiter.downloadUsage
          [("1.2.3.4:2026-9-12", ⟨10, 3, "2026-9-12"⟩)] "1.2.3.4" "2026-9-12" < 20 →
        (UsageLimiter.downloadLimiter
          [("1.2.3.4:2026-9-12", ⟨10, 3, "2026-9-12"⟩)] "1.2.3.4" "2026-9-12" 20).2 = true))
  ∧ (UsageLimiter.uploadLimiter
       [("1.2.3.4:2026-9-12", ⟨10, 3, "2026-9-12"⟩)] "1.2.3.4" "2026-9-12" 10).2 = false
  ∧ (UsageLimiter.downloadLimiter
       [("1.2.3.4:2026-9-12", ⟨10, 3, "2026-9-12"⟩)] "1.2.3.4" "2026-9-12" 20).2 = true :=
  ⟨c9_admission_check [("1.2.3.4:2026-9-12", ⟨10, 3, "2026-9-12"⟩)] "1.2.3.4" "2026-9-12" 10 20 7,
   by decide, by decide⟩

/-- C10: in both providers, the inactive-file scan keeps only metadata
files whose filename equals the record's own `privateKey` field, so over
any well-formed metadata directory the scan's output is duplicate-free
(each object, though persisted under two keys, is returned at most once),
every returned key is the `privateKey` of the record stored under that very
key, and a key under which a record is stored whose `privateKey` is some
other key — in particular the object's public-key copy — is never
returned. -/
theorem c10_scan_returns_private_keys_once (cutoff : Int) :
    (∀ s : LocalFS.Store, wfMap s.metadata →
        (LocalFS.getInactiveFiles s cutoff).Nodup
      ∧ (∀ k ∈ LocalFS.getInactiveFiles s cutoff,
           ∃ md, lookupA s.metadata k = some md ∧ md.privateKey = k)
      ∧ (∀ (pub k : String) (md : LocalFS.Metadata),
           lookupA s.metadata pub = some md → md.privateKey = k → pub ≠ k →
           pub ∉ LocalFS.getInactiveFiles s cutoff))
  ∧ (∀ s : GCS.Store, wfMap s.metadata →
        (GCS.getInactiveFiles s cutoff).Nodup
      ∧ (∀ k ∈ GCS.getInactiveFiles s cutoff,
           ∃ md, lookupA s.metadata k = some md ∧ md.privateKey = k)
      ∧ (∀ (pub k : String) (md : GCS.Metadata),
           lookupA s.metadata pub = some md → md.privateKey = k → pub ≠ k →
           pub ∉ GCS.getInactiveFiles s cutoff)) := by
  constructor
  · intro s hwf
    refine ⟨scan_nodup LocalFS.Metadata.privateKey LocalFS.referenceDate cutoff s.metadata hwf,
      ?_, ?_⟩
    · intro k hk
      rw [LocalFS.getInactiveFiles,
        mem_scan_iff LocalFS.Metadata.privateKey LocalFS.referenceDate cutoff k s.metadata hwf] at hk
      obtain ⟨md, hmd, hpk, _⟩ := hk
      exact ⟨md, hmd, hpk⟩
    · intro pub k md hmd hpk hne hmem
      rw [LocalFS.getInactiveFiles,
        mem_scan_iff LocalFS.Metadata.privateKey LocalFS.referenceDate cutoff pub s.metadata hwf] at hmem
      obtain ⟨md', hmd', hpk', _⟩ := hmem
      rw [hmd] at hmd'
      cases hmd'
      exact hne (hpk'.symm.trans hpk)
  · intro s hwf
    refine ⟨scan_nodup GCS.Metadata.privateKey GCS.referenceDate cutoff s.metadata hwf,
      ?_, ?_⟩
    · intro k hk
      rw [GCS.getInactiveFiles,
        mem_scan_iff GCS.Metadata.privateKey GCS.referenceDate cutoff k s.metadata hwf] at hk
      obtain ⟨md, hmd, hpk, _⟩ := hk
      exact ⟨md, hmd, hpk⟩
    · intro pub k md hmd hpk hne hmem
      rw [GCS.getInactiveFiles,
        mem_scan_iff GCS.Metadata.privateKey GCS.referenceDate cutoff pub s.metadata hwf] at hmem
      obtain ⟨md', hmd', hpk', _⟩ := hmem
      rw [hmd] at hmd'
      cases hmd'
      exact hne (hpk'.symm.trans hpk)

/-- C10 witness: a store holding one stale object persisted under both its
keys (`a` public, `b` private): the scan over it is duplicate-free, each
listed key carries its own record, and the public copy `a` is excluded. -/
theorem c10_scan_returns_private_keys_once_witness :
    wfMap (LocalFS.Store.mk [("a", [7])]
        [("a", ⟨"a", "b", "nm", "mt", 0, none, 1⟩),
         ("b", ⟨"a", "b", "nm", "mt", 0, none, 1⟩)]).metadata
  ∧ ((LocalFS.getInactiveFiles (LocalFS.Store.mk [("a", [7])]
        [("a", ⟨"a", "b", "nm", "mt", 0, none, 1⟩),
         ("b", ⟨"a", "b", "nm", "mt", 0, none, 1⟩)]) 5).Nodup
     ∧ (∀ k ∈ LocalFS.getInactiveFiles (LocalFS.Store.mk [("a", [7])]
          [("a", ⟨"a", "b", "nm", "mt", 0, none, 1⟩),
           ("b", ⟨"a", "b", "nm", "mt", 0, none, 1⟩)]) 5,
          ∃ md, lookupA (LocalFS.Store.mk [("a", [7])]
            [("a", ⟨"a", "b", "nm", "mt", 0, none, 1⟩),
             ("b", ⟨"a", "b", "nm", "mt", 0, none, 1⟩)]).metadata k = some md
            ∧ md.privateKey = k)
     ∧ (∀ (pub k : String) (md : LocalFS.Metadata),
          lookupA (LocalFS.Store.mk [("a", [7])]
            [("a", ⟨"a", "b", "nm", "mt", 0, none, 1⟩),
             ("b", ⟨"a", "b", "nm", "mt", 0, none, 1⟩)]).metadata pub = some md →
          md.privateKey = k → pub ≠ k →
          pub ∉ LocalFS.getInactiveFiles (LocalFS.Store.mk [("a", [7])]
            [("a", ⟨"a", "b", "nm", "mt", 0, none, 1⟩),
             ("b", ⟨"a", "b", "nm", "mt", 0, none, 1⟩)]) 5)) :=
  ⟨by decide,
   (c10_scan_returns_private_keys_once 5).1
     (LocalFS.Store.mk [("a", [7])]
       [("a", ⟨"a", "b", "nm", "mt", 0, none, 1⟩),
        ("b", ⟨"a", "b", "nm", "mt", 0, none, 1⟩)])
     (by decide)⟩
